import Mathlib

/-!
# Verification of the MILP_Solver text-to-model parser

Shallow embedding of `src/parser.cpp` (and the model-loading lookups of
`src/solver.cpp`) from the MILP_Solver repository, together with theorems
settling the frozen claims about its specification.

Modelling conventions:

* C++ `double` coefficients and bounds are modelled as exact rationals `ℚ`;
  every numeric literal exercised by the claims is exactly representable.
  The `±INFINITY` default bounds become the dedicated type `EVal`.
* `std::runtime_error` / `std::invalid_argument` throws become an `Except`
  error type `ParseErr` with one constructor per throw site.  `stodFail`
  models the `std::invalid_argument` raised by `std::stod`, which carries
  no line number and no token.
* `std::unordered_map<std::string, Bound>` is modelled as an association
  list with unique keys; `operator[]` (lookup-or-default-insert followed by
  mutation) becomes `mapUpdate`.
* The `std::regex` patterns of the source are embedded by hand as
  deterministic scanners.  Each embedding follows the ECMAScript
  leftmost/greedy backtracking semantics of the concrete pattern; where
  greediness matters (the constraint pattern `(.+)(<=|>=|=)(.+)`) the
  backtracking search is embedded explicitly (`splitSearch` walks the
  left-group length downwards, trying the alternation in order).
* `std::stod` is modelled on the plain decimal fragment
  (whitespace, sign, digits, dot, digits; trailing junk ignored); the
  hexadecimal / exponent / infinity / nan forms it also accepts are not
  produced by any input considered here.
* The uninitialized C++ fields (`LPModel::type`, default
  `LinearExpression::lineNumber`) are modelled as `Option OptType := none`
  and `0` respectively; the parser never reads them.
-/

/-! ## Character classes and string utilities (`parser.cpp` anonymous namespace) -/

/-- The character set `" \t\r\n"` used by `trim` in `parser.cpp`. -/
def isTrimChar (c : Char) : Bool :=
  c = ' ' || c = '\t' || c = '\r' || c = '\n'

/-- ECMAScript `\s` (equally C `isspace`) restricted to ASCII:
space, tab, newline, vertical tab, form feed, carriage return. -/
def isWsC (c : Char) : Bool :=
  c = ' ' || c = '\t' || c = '\n' || c = '\x0b' || c = '\x0c' || c = '\r'

/-- ECMAScript `\d`, i.e. `[0-9]`, by ASCII code. -/
def isDigitB (c : Char) : Bool :=
  48 ≤ c.toNat && c.toNat ≤ 57

/-- `[a-zA-Z_]`, the head character class of identifiers in the source
regexes, by ASCII code (`A`-`Z` is 65-90, `a`-`z` is 97-122). -/
def isIdentHead (c : Char) : Bool :=
  (65 ≤ c.toNat && c.toNat ≤ 90) || (97 ≤ c.toNat && c.toNat ≤ 122) || c = '_'

/-- `[a-zA-Z0-9_]`, equally ECMAScript `\w` (used by the bound-line regex). -/
def isIdentChar (c : Char) : Bool :=
  isIdentHead c || isDigitB c

/-- `trim` from `parser.cpp`: strip leading and trailing `" \t\r\n"`. -/
def trimL (cs : List Char) : List Char :=
  ((cs.dropWhile isTrimChar).reverse.dropWhile isTrimChar).reverse

/-- `trim` on `String`. -/
def trimS (s : String) : String :=
  ⟨trimL s.data⟩

/-- Is `pat` a prefix of `cs`?  (Used for `rfind("//", 0) == 0` and `find`.) -/
def hasPrefixL : List Char → List Char → Bool
  | [], _ => true
  | _ :: _, [] => false
  | p :: ps, c :: cs => p = c && hasPrefixL ps cs

/-- `std::string::find`: index of the first occurrence of `pat` in `cs`. -/
def findSubstr (pat : List Char) : List Char → Option Nat
  | [] => if hasPrefixL pat [] then some 0 else none
  | c :: t =>
    if hasPrefixL pat (c :: t) then some 0
    else (findSubstr pat t).map (fun n => n + 1)

/-- Split on a delimiter, keeping empty fields. -/
def splitAux (d : Char) : List Char → List Char → List (List Char)
  | [], acc => [acc.reverse]
  | c :: t, acc => if c = d then acc.reverse :: splitAux d t [] else splitAux d t (c :: acc)

/-- A `while (getline(ss, item, d))` loop over a stringstream: like splitting
on `d`, except that the empty string yields no items and a trailing
delimiter does not yield a final empty item. -/
def cppGetlineSplit (cs : List Char) (d : Char) : List (List Char) :=
  if cs.isEmpty then []
  else
    let parts := splitAux d cs []
    if cs.getLast? = some d then parts.dropLast else parts

/-- `split` from `parser.cpp`: split on a delimiter and trim each token. -/
def splitTrim (s : String) (d : Char) : List String :=
  (cppGetlineSplit s.data d).map (fun cs => (⟨trimL cs⟩ : String))

/-- The lines `Parser::parseFile` reads from the input stream
(`while (getline(file, line))` over the file contents). -/
def linesOf (input : String) : List String :=
  (cppGetlineSplit input.data '\n').map (fun cs => (⟨cs⟩ : String))

/-! ## Numerals (`std::stod` on the decimal fragment) -/

/-- Value of a digit string, most significant first. -/
def digitsToNat (cs : List Char) : Nat :=
  cs.foldl (fun n c => 10 * n + (c.toNat - '0'.toNat)) 0

/-- Exact rational value of the decimal numeral with optional minus sign,
integer digits `d1` and fraction digits `d2`. -/
def decOf (neg : Bool) (d1 d2 : List Char) : ℚ :=
  let mant : Int := (digitsToNat (d1 ++ d2) : Int)
  let mant : Int := if neg then -mant else mant
  if d2.isEmpty then (mant : ℚ) else (mant : ℚ) / ((10 : ℚ) ^ d2.length)

/-- The optional sign accepted by `std::stod`: consumed sign (`true` for
minus) and the remaining characters. -/
def stodSign (cs : List Char) : Bool × List Char :=
  match cs with
  | c :: t => if c = '+' then (false, t) else if c = '-' then (true, t) else (false, cs)
  | [] => (false, [])

/-- `std::stod`, modelled on the decimal fragment: skip leading whitespace,
optional sign, digits, optional dot, digits; at least one digit must be
present, and (as in C++) trailing characters are ignored.  Returns `none`
where `std::stod` throws `std::invalid_argument`. -/
def stodNum (neg : Bool) (cs : List Char) : Option ℚ :=
  match cs.dropWhile isDigitB with
  | c :: t =>
    if c = '.' then
      if (cs.takeWhile isDigitB).isEmpty && (t.takeWhile isDigitB).isEmpty then none
      else some (decOf neg (cs.takeWhile isDigitB) (t.takeWhile isDigitB))
    else
      if (cs.takeWhile isDigitB).isEmpty then none
      else some (decOf neg (cs.takeWhile isDigitB) [])
  | [] =>
    if (cs.takeWhile isDigitB).isEmpty then none
    else some (decOf neg (cs.takeWhile isDigitB) [])

def stodL (cs : List Char) : Option ℚ :=
  stodNum (stodSign (cs.dropWhile isWsC)).1 (stodSign (cs.dropWhile isWsC)).2

/-! ## Data model (`parser.h`) -/

/-- `enum class OptType` from `parser.h`. -/
inductive OptType
  | MAXIMIZE
  | MINIMIZE
  deriving DecidableEq

/-- `struct Term` from `parser.h` (`varName` embeds the C++ field `variable`,
which is a reserved word in Lean). -/
structure Term where
  coefficient : ℚ
  varName : String
  deriving DecidableEq

/-- `struct LinearExpression` from `parser.h`. -/
structure LinearExpression where
  terms : List Term
  rhs : ℚ := 0
  op : String := ""
  lineNumber : Nat := 0
  deriving DecidableEq

/-- `enum class VarType` from `parser.h`. -/
inductive VarType
  | CONTINUOUS
  | INTEGER
  | BINARY
  deriving DecidableEq

/-- A `double` bound value: finite rational or one of the two infinities
used as the defaults in `struct Bound`. -/
inductive EVal
  | negInf
  | fin (v : ℚ)
  | posInf
  deriving DecidableEq

/-- `struct Bound` from `parser.h` with its member defaults. -/
structure Bound where
  lower : EVal := .negInf
  upper : EVal := .posInf
  isFree : Bool := false
  type : VarType := .CONTINUOUS
  deriving DecidableEq

/-- The `std::unordered_map<std::string, Bound>` of `LPModel`, modelled as an
association list with unique keys in insertion order. -/
def BoundsMap : Type := List (String × Bound)

instance : DecidableEq BoundsMap :=
  inferInstanceAs (DecidableEq (List (String × Bound)))

/-- `struct LPModel` from `parser.h`.  `type` has no initializer in C++ (it
is indeterminate until a direction line is parsed); this is modelled as
`Option OptType` starting at `none`. -/
structure LPModel where
  type : Option OptType := none
  objective : LinearExpression := {terms := []}
  constraints : List LinearExpression := []
  bounds : BoundsMap := []
  deriving DecidableEq

/-- One constructor per throw site of `parser.cpp`, plus `stodFail` for the
`std::invalid_argument` thrown inside `std::stod` (which carries neither a
line number nor a token). -/
inductive ParseErr
  | dupType (line : Nat)
  | unexpected (line : Nat)
  | termFmt (line : Nat) (token : String)
  | noTerms (line : Nat)
  | constraintFmt (line : Nat)
  | boundFmt (line : Nat)
  | stodFail
  deriving DecidableEq

deriving instance DecidableEq for Except

/-- `model.bounds[k]` lookup without insertion (the read side used by
`GLPKSolver::loadModel`, which calls `varNameToCol.at(name)`). -/
def mapLookup : BoundsMap → String → Option Bound
  | [], _ => none
  | (k, b) :: t, key => if k = key then some b else mapLookup t key

/-- `model.bounds[k]` from `unordered_map::operator[]`: materialize the entry
with the default `Bound` if absent, then mutate it with `f`. -/
def mapUpdate : BoundsMap → String → (Bound → Bound) → BoundsMap
  | [], k, f => [(k, f {})]
  | (k', b) :: t, k, f =>
    if k' = k then (k', f b) :: t else (k', b) :: mapUpdate t k f

/-! ## Term reader (`parseTerm`, parser.cpp lines 61-78)

The regex `([+-]?\d*\.?\d*)([a-zA-Z_][a-zA-Z0-9_]*)` under `regex_match` is
deterministic: the optional sign, the digit runs and the optional dot are
forced (no digit, dot or sign is an identifier-head character, so giving
characters back can never make the anchored match succeed). -/

/-- The optional leading `[+-]?` of the term pattern: consumed characters
and remainder. -/
def splitSign (cs : List Char) : List Char × List Char :=
  match cs with
  | c :: t => if c = '+' || c = '-' then ([c], t) else ([], cs)
  | [] => ([], [])

/-- The `\d*\.?\d*` core of the coefficient: consumed characters and
remainder (each greedy component is forced, see the section comment). -/
def termCoeffScan (cs : List Char) : List Char × List Char :=
  let d1 := cs.takeWhile isDigitB
  let r2 := cs.dropWhile isDigitB
  match r2 with
  | c :: t =>
    if c = '.' then (d1 ++ c :: t.takeWhile isDigitB, t.dropWhile isDigitB)
    else (d1, r2)
  | [] => (d1, r2)

/-- Anchored match of the term pattern: returns `(coefficient text,
identifier text)` exactly as groups 1 and 2 of the C++ regex, or `none`
when `regex_match` fails. -/
def matchTermPattern (cs : List Char) : Option (List Char × List Char) :=
  match termCoeffScan (splitSign cs).2 with
  | (coeff, c :: t) =>
    if isIdentHead c && t.all isIdentChar then
      some ((splitSign cs).1 ++ coeff, c :: t)
    else none
  | (_, []) => none

/-- `parseTerm` from `parser.cpp`: coefficient defaults to `1` when the
coefficient text is empty or `"+"`, to `-1` when it is `"-"`, and is
otherwise converted with `std::stod`. -/
def parseTerm (token : String) (line : Nat) : Except ParseErr Term :=
  match matchTermPattern token.data with
  | none => .error (.termFmt line token)
  | some (coeffStr, ident) =>
    if coeffStr = [] ∨ coeffStr = ['+'] then .ok ⟨1, ⟨ident⟩⟩
    else if coeffStr = ['-'] then .ok ⟨-1, ⟨ident⟩⟩
    else
      match stodL coeffStr with
      | some q => .ok ⟨q, ⟨ident⟩⟩
      | none => .error .stodFail

/-! ## Expression reader (`parseExpression`, parser.cpp lines 85-101)

`sregex_iterator` over `([+-]?\s*\d*\.?\d*[a-zA-Z_][a-zA-Z0-9_]*)`: repeated
leftmost search; at a fixed start position the greedy components are again
forced, so a single forward scan embeds it.  Each match is nonempty (it
contains an identifier-head character), so fuel `cs.length` always
suffices. -/

/-- Try to match one expression token starting exactly at the head of `cs`;
returns the matched characters and the remaining suffix. -/
def tokenMatchAt (cs : List Char) : Option (List Char × List Char) :=
  match termCoeffScan ((splitSign cs).2.dropWhile isWsC) with
  | (coeff, c :: t) =>
    if isIdentHead c then
      some ((splitSign cs).1 ++ (splitSign cs).2.takeWhile isWsC ++ coeff
              ++ (c :: t.takeWhile isIdentChar),
            t.dropWhile isIdentChar)
    else none
  | (_, []) => none

/-- The `sregex_iterator` loop: successive leftmost matches of the token
pattern.  A failed start position advances by one character. -/
def scanTokensF : Nat → List Char → List (List Char)
  | 0, _ => []
  | _, [] => []
  | fuel + 1, c :: rest =>
    match tokenMatchAt (c :: rest) with
    | some (tok, r) => tok :: scanTokensF fuel r
    | none => scanTokensF fuel rest

/-- All token matches of the expression pattern in order. -/
def scanTokens (cs : List Char) : List (List Char) :=
  scanTokensF cs.length cs

/-- Parse each token in order, propagating the first error (the loop body of
`parseExpression`). -/
def parseTermsList : List String → Nat → Except ParseErr (List Term)
  | [], _ => .ok []
  | t :: rest, line =>
    match parseTerm t line with
    | .error e => .error e
    | .ok tm =>
      match parseTermsList rest line with
      | .error e => .error e
      | .ok tms => .ok (tm :: tms)

/-- `parseExpression` from `parser.cpp`: extract every token, strip embedded
whitespace from each (`regex_replace(\s+, "")`), parse the terms in order,
and fail when no term was found. -/
def parseExpression (exprStr : String) (line : Nat) : Except ParseErr (List Term) :=
  let toks := (scanTokens exprStr.data).map
    (fun t => ((⟨t.filter (fun c => !(isWsC c))⟩ : String)))
  match parseTermsList toks line with
  | .error e => .error e
  | .ok terms => if terms.isEmpty then .error (.noTerms line) else .ok terms

/-! ## Constraint reader (`parseConstraint`, parser.cpp lines 108-123)

`regex_match(line, (.+)(<=|>=|=)(.+))` under ECMAScript semantics: the
greedy `(.+)` tries the longest left part first, backtracking rightmost
first, and at each boundary position the alternation is tried in the order
`<=`, `>=`, `=`.  `splitSearch` embeds exactly this search. -/

/-- The alternation `(<=|>=|=)` tried at index `k`: the matched operator and
its length (the alternatives in their source order). -/
def opAt (cs : List Char) (k : Nat) : Option (String × Nat) :=
  if cs.get? k = some '<' ∧ cs.get? (k + 1) = some '=' then some ("<=", 2)
  else if cs.get? k = some '>' ∧ cs.get? (k + 1) = some '=' then some (">=", 2)
  else if cs.get? k = some '=' then some ("=", 1)
  else none

/-- One backtracking step: left group `cs.take k` (nonempty since the search
starts at `k ≥ 1`), the alternation at `k`, and a nonempty right group. -/
def trySplitAt (cs : List Char) (k : Nat) : Option (List Char × String × List Char) :=
  match opAt cs k with
  | some (op, olen) =>
    if k + olen < cs.length then some (cs.take k, op, cs.drop (k + olen)) else none
  | none => none

/-- The backtracking search: boundary positions from `k` downwards to `1`. -/
def splitSearch (cs : List Char) : Nat → Option (List Char × String × List Char)
  | 0 => none
  | k + 1 =>
    match trySplitAt cs (k + 1) with
    | some r => some r
    | none => splitSearch cs k

/-- The full `regex_match` of the constraint pattern: greedy left group, so
the first successful boundary counting downwards from the end. -/
def constraintSplit (cs : List Char) : Option (List Char × String × List Char) :=
  splitSearch cs (cs.length - 1)

/-- `parseConstraint` from `parser.cpp`: split on the constraint regex, parse
the left part as an expression and the right part with `std::stod`. -/
def parseConstraint (lineStr : String) (line : Nat) : Except ParseErr LinearExpression :=
  match constraintSplit lineStr.data with
  | none => .error (.constraintFmt line)
  | some (lhs, op, rhsStr) =>
    match parseExpression (⟨lhs⟩ : String) line with
    | .error e => .error e
    | .ok terms =>
      match stodL rhsStr with
      | none => .error .stodFail
      | some rhs => .ok ⟨terms, rhs, op, line⟩

/-! ## Bounds / Integer / Binary sections (parser.cpp lines 193-227) -/

/-- Anchored match of the bound regex `(\w+)\s*(>=|<=|=)\s*(-?\d+\.?\d*)`
(deterministic: every greedy component is forced), returning the variable
name, the operator and the `std::stod` value of the numeral. -/
def boundPatternMatch (cs : List Char) : Option (String × String × ℚ) :=
  let w := cs.takeWhile isIdentChar
  let r1 := cs.dropWhile isIdentChar
  if w.isEmpty then none
  else
    let r2 := r1.dropWhile isWsC
    let opRest : Option (String × List Char) :=
      match r2 with
      | '>' :: '=' :: t => some (">=", t)
      | '<' :: '=' :: t => some ("<=", t)
      | '=' :: t => some ("=", t)
      | _ => none
    match opRest with
    | none => none
    | some (op, r3) =>
      let r4 := r3.dropWhile isWsC
      let negRest : Bool × List Char :=
        match r4 with
        | '-' :: t => (true, t)
        | _ => (false, r4)
      let d1 := negRest.2.takeWhile isDigitB
      let r5 := negRest.2.dropWhile isDigitB
      if d1.isEmpty then none
      else
        match r5 with
        | [] => some (⟨w⟩, op, decOf negRest.1 d1 [])
        | '.' :: t =>
          if (t.dropWhile isDigitB).isEmpty then
            some (⟨w⟩, op, decOf negRest.1 d1 (t.takeWhile isDigitB))
          else none
        | _ => none

/-- The `BOUNDS` branch of the section loop: a line containing `"free"`
anywhere marks the text before the first `"free"` (trimmed) as a free
variable; otherwise the bound regex narrows the named variable; otherwise
`FormatError`. -/
def applyBoundsLine (line : String) (lineNo : Nat) (m : BoundsMap) :
    Except ParseErr BoundsMap :=
  match findSubstr "free".data line.data with
  | some i =>
    .ok (mapUpdate m (trimS ⟨line.data.take i⟩) (fun b => { b with isFree := true }))
  | none =>
    match boundPatternMatch line.data with
    | some (v, op, val) =>
      .ok (mapUpdate m v (fun b =>
        if op = ">=" then { b with lower := .fin val }
        else if op = "<=" then { b with upper := .fin val }
        else { b with lower := .fin val, upper := .fin val }))
    | none => .error (.boundFmt lineNo)

/-- The `INTEGERS` / `BINARIES` branch: split the line on commas, trim, and
set each named variable's kind (BINARY additionally forces bounds 0..1). -/
def applyIntBinLine (line : String) (isBin : Bool) (m : BoundsMap) : BoundsMap :=
  (splitTrim line ',').foldl
    (fun acc v => mapUpdate acc v (fun b =>
      if isBin then { b with type := .BINARY, lower := .fin 0, upper := .fin 1 }
      else { b with type := .INTEGER }))
    m

/-! ## The section state machine (`Parser::parseFile`, parser.cpp lines 145-237) -/

/-- `enum Section` local to `Parser::parseFile`. -/
inductive Section
  | NONE
  | CONSTRAINTS
  | BOUNDS
  | INTEGERS
  | BINARIES
  deriving DecidableEq

/-- The `while (getline(...))` loop of `Parser::parseFile`, with the model,
the current section and the `objectiveParsed` flag threaded explicitly.
Note that, exactly as in the source, the `Max`/`Min` branch sets
`objectiveParsed` to `true`. -/
def parseLinesAux : List String → Nat → LPModel → Section → Bool → Except ParseErr LPModel
  | [], _, m, _, _ => .ok m
  | raw :: rest, prevNo, m, cur, objParsed =>
    let lineNo := prevNo + 1
    let line := trimS raw
    if line.data.isEmpty || hasPrefixL "//".data line.data then
      parseLinesAux rest lineNo m cur objParsed
    else if line = "Max" || line = "Min" then
      if objParsed then .error (.dupType lineNo)
      else
        parseLinesAux rest lineNo
          { m with type := some (if line = "Max" then .MAXIMIZE else .MINIMIZE) }
          cur true
    else if !objParsed then
      match parseExpression line lineNo with
      | .error e => .error e
      | .ok terms =>
        parseLinesAux rest lineNo
          { m with objective := ⟨terms, 0, "", lineNo⟩ } .CONSTRAINTS true
    else if line = "Bounds:" then parseLinesAux rest lineNo m .BOUNDS objParsed
    else if line = "Integer:" then parseLinesAux rest lineNo m .INTEGERS objParsed
    else if line = "Binary:" then parseLinesAux rest lineNo m .BINARIES objParsed
    else
      match cur with
      | .CONSTRAINTS =>
        match parseConstraint line lineNo with
        | .error e => .error e
        | .ok c =>
          parseLinesAux rest lineNo { m with constraints := m.constraints ++ [c] } cur objParsed
      | .BOUNDS =>
        match applyBoundsLine line lineNo m.bounds with
        | .error e => .error e
        | .ok b => parseLinesAux rest lineNo { m with bounds := b } cur objParsed
      | .INTEGERS =>
        parseLinesAux rest lineNo { m with bounds := applyIntBinLine line false m.bounds } cur objParsed
      | .BINARIES =>
        parseLinesAux rest lineNo { m with bounds := applyIntBinLine line true m.bounds } cur objParsed
      | .NONE => .error (.unexpected lineNo)

/-- `Parser::parseFile` applied to the contents of the input file (the
`ifstream` handling itself is not modelled; `input` is the file text). -/
def parseFile (input : String) : Except ParseErr LPModel :=
  parseLinesAux (linesOf input) 0 {} .NONE false

/-- Every variable referenced by a term of the objective or of a constraint
has an entry in the bounds map.  This is the lookup precondition of
`GLPKSolver::loadModel`, whose `varNameToCol.at(term.variable)` calls
(solver.cpp lines 56 and 88) throw `std::out_of_range` exactly when it
fails (`varNameToCol` is keyed by the entries of `model.bounds`). -/
def solverColsOk (m : LPModel) : Bool :=
  (m.objective.terms ++ m.constraints.foldr (fun (c : LinearExpression) acc => c.terms ++ acc) []).all
    (fun t => (mapLookup m.bounds t.varName).isSome)

/-! ## Specification-side definitions

These follow the words of the (amended) claims, to be compared with the
definitions embedded from the source. -/

/-- Position `p` is a valid split point in the claim's sense: an `'='`
character with nonempty text on both sides. -/
def eqValidB (cs : List Char) (p : Nat) : Bool :=
  decide (cs.get? p = some '=') && decide (1 ≤ p) && decide (p + 1 < cs.length)

/-- The last valid `'='` split position at or below `k`. -/
def lastEqFrom (cs : List Char) : Nat → Option Nat
  | 0 => none
  | k + 1 => if eqValidB cs (k + 1) then some (k + 1) else lastEqFrom cs k

/-- Specification-side constraint split: the text before and after the LAST
occurrence of `'='` that has nonempty text on both sides. -/
def lastEqSplit (cs : List Char) : Option (List Char × List Char) :=
  (lastEqFrom cs (cs.length - 1)).map (fun p => (cs.take p, cs.drop (p + 1)))

/-- Claim-side identifier shape: `[a-zA-Z_][a-zA-Z0-9_]*`. -/
def isIdentShapeB (cs : List Char) : Bool :=
  match cs with
  | [] => false
  | c :: t => isIdentHead c && t.all isIdentChar

/-- The model produced by parsing the one-line input `"x\n"`; used to
instantiate the determinism theorem at a concrete input. -/
def modelOfSingleX : LPModel :=
  ⟨none, ⟨[⟨1, "x"⟩], 0, "", 1⟩, [], []⟩

/-! ## Helper lemmas: the greedy constraint split -/

theorem eqValidB_iff {cs : List Char} {p : Nat} :
    eqValidB cs p = true ↔ cs.get? p = some '=' ∧ 1 ≤ p ∧ p + 1 < cs.length := by
  simp [eqValidB, and_assoc]

theorem trySplitAt_of_eqValid {cs : List Char} {p : Nat} (h : eqValidB cs p = true) :
    trySplitAt cs p = some (cs.take p, "=", cs.drop (p + 1)) := by
  obtain ⟨h1, h23⟩ := eqValidB_iff.mp h
  unfold trySplitAt opAt
  rw [h1, if_neg (fun hcon => absurd hcon.1 (by decide)),
      if_neg (fun hcon => absurd hcon.1 (by decide)),
      if_pos rfl]
  exact if_pos h23.2

theorem trySplitAt_none_of_ge {cs : List Char} {j : Nat} (hj : cs.length ≤ j) :
    trySplitAt cs j = none := by
  have h1 : cs.get? j = none := List.get?_eq_none.mpr hj
  unfold trySplitAt opAt
  rw [h1, if_neg (fun hcon => absurd hcon.1 (by decide)),
      if_neg (fun hcon => absurd hcon.1 (by decide)),
      if_neg (fun hcon => absurd hcon (by decide))]

theorem trySplitAt_none_of_not_valid {cs : List Char} {k : Nat}
    (hup : ∀ j, k < j → trySplitAt cs j = none)
    (hnv : eqValidB cs k = false) (hk : 1 ≤ k) :
    trySplitAt cs k = none := by
  unfold trySplitAt opAt
  by_cases hc1 : cs.get? k = some '<' ∧ cs.get? (k + 1) = some '='
  · rw [if_pos hc1]
    by_cases hlen : k + 2 < cs.length
    · exfalso
      have hv : eqValidB cs (k + 1) = true :=
        eqValidB_iff.mpr ⟨hc1.2, by omega, by omega⟩
      have hs := trySplitAt_of_eqValid hv
      have hn := hup (k + 1) (by omega)
      rw [hn] at hs
      exact Option.noConfusion hs
    · exact if_neg hlen
  · rw [if_neg hc1]
    by_cases hc2 : cs.get? k = some '>' ∧ cs.get? (k + 1) = some '='
    · rw [if_pos hc2]
      by_cases hlen : k + 2 < cs.length
      · exfalso
        have hv : eqValidB cs (k + 1) = true :=
          eqValidB_iff.mpr ⟨hc2.2, by omega, by omega⟩
        have hs := trySplitAt_of_eqValid hv
        have hn := hup (k + 1) (by omega)
        rw [hn] at hs
        exact Option.noConfusion hs
      · exact if_neg hlen
    · rw [if_neg hc2]
      by_cases hc3 : cs.get? k = some '='
      · rw [if_pos hc3]
        by_cases hlen : k + 1 < cs.length
        · exfalso
          have hv : eqValidB cs k = true := eqValidB_iff.mpr ⟨hc3, hk, hlen⟩
          rw [hnv] at hv
          exact Bool.noConfusion hv
        · exact if_neg hlen
      · rw [if_neg hc3]

theorem splitSearch_eq_lastEqFrom (cs : List Char) :
    ∀ k, (∀ j, k < j → trySplitAt cs j = none) →
      splitSearch cs k = (lastEqFrom cs k).map (fun p => (cs.take p, "=", cs.drop (p + 1)))
  | 0, _ => rfl
  | k + 1, hup => by
    by_cases h : eqValidB cs (k + 1) = true
    · unfold splitSearch lastEqFrom
      rw [trySplitAt_of_eqValid h, if_pos h]
      rfl
    · have hnv : eqValidB cs (k + 1) = false := by
        revert h; cases eqValidB cs (k + 1) <;> simp
      have hnone : trySplitAt cs (k + 1) = none :=
        trySplitAt_none_of_not_valid hup hnv (by omega)
      unfold splitSearch lastEqFrom
      rw [hnone, if_neg h]
      exact splitSearch_eq_lastEqFrom cs k (fun j hj => by
        by_cases hj2 : j = k + 1
        · rw [hj2]; exact hnone
        · exact hup j (by omega))

theorem constraintSplit_eq_lastEqSplit (cs : List Char) :
    constraintSplit cs = (lastEqSplit cs).map (fun pr => (pr.1, "=", pr.2)) := by
  unfold constraintSplit lastEqSplit
  rw [splitSearch_eq_lastEqFrom cs (cs.length - 1)
      (fun j hj => trySplitAt_none_of_ge (by omega))]
  cases lastEqFrom cs (cs.length - 1) <;> rfl

/-! ## Helper lemmas: scanning rendered tokens -/

theorem takeWhile_append_of_all {p : Char → Bool} :
    ∀ (a b : List Char), (∀ c ∈ a, p c = true) →
      (∀ c t, b = c :: t → p c = false) →
      (a ++ b).takeWhile p = a
  | [], b, _, hb => by
    cases b with
    | nil => rfl
    | cons c t => simp [List.takeWhile_cons, hb c t rfl]
  | c :: a, b, ha, hb => by
    have hc : p c = true := ha c (by simp)
    have ih := takeWhile_append_of_all a b (fun x hx => ha x (by simp [hx])) hb
    simp [List.takeWhile_cons, hc, ih]

theorem dropWhile_append_of_all {p : Char → Bool} :
    ∀ (a b : List Char), (∀ c ∈ a, p c = true) →
      (∀ c t, b = c :: t → p c = false) →
      (a ++ b).dropWhile p = b
  | [], b, _, hb => by
    cases b with
    | nil => rfl
    | cons c t => simp [List.dropWhile_cons, hb c t rfl]
  | c :: a, b, ha, hb => by
    simp only [List.cons_append, List.dropWhile_cons, ha c (by simp)]
    exact dropWhile_append_of_all a b (fun x hx => ha x (by simp [hx])) hb

theorem dropWhile_head_false {p : Char → Bool} :
    ∀ cs : List Char, (∀ c t, cs = c :: t → p c = false) → cs.dropWhile p = cs
  | [], _ => rfl
  | c :: t, h => by simp [List.dropWhile_cons, h c t rfl]

theorem not_sign_of_isDigitB {c : Char} (h : isDigitB c = true) :
    (c = '+' || c = '-') = false := by
  have h1 : c ≠ '+' := fun e => by subst e; exact absurd h (by decide)
  have h2 : c ≠ '-' := fun e => by subst e; exact absurd h (by decide)
  simp [h1, h2]

theorem not_digit_of_isIdentHead {c : Char} (h : isIdentHead c = true) :
    isDigitB c = false := by
  cases hb : isDigitB c
  · rfl
  · exfalso
    simp only [isDigitB, Bool.and_eq_true, decide_eq_true_eq] at hb
    simp only [isIdentHead, Bool.or_eq_true, Bool.and_eq_true, decide_eq_true_eq] at h
    rcases h with (⟨u1, u2⟩ | ⟨u1, u2⟩) | u3
    · omega
    · omega
    · subst u3; exact absurd hb (by decide)

theorem not_sign_of_isIdentHead {c : Char} (h : isIdentHead c = true) :
    (c = '+' || c = '-') = false := by
  have h1 : c ≠ '+' := fun e => by subst e; exact absurd h (by decide)
  have h2 : c ≠ '-' := fun e => by subst e; exact absurd h (by decide)
  simp [h1, h2]

theorem ne_dot_of_isIdentHead {c : Char} (h : isIdentHead c = true) : c ≠ '.' :=
  fun e => by subst e; exact absurd h (by decide)

theorem not_ws_of_isDigitB {c : Char} (h : isDigitB c = true) : isWsC c = false := by
  cases hw : isWsC c
  · rfl
  · exfalso
    simp only [isWsC, Bool.or_eq_true, decide_eq_true_eq] at hw
    rcases hw with ((((e | e) | e) | e) | e) | e <;> (subst e; exact absurd h (by decide))

theorem cons_ne_single {a b : Char} (h : a ≠ b) (t : List Char) : (a :: t) ≠ [b] :=
  fun he => by injection he with h1 _; exact h h1

theorem cons_cons_ne_single {a b c : Char} {t : List Char} : (a :: b :: t) ≠ [c] :=
  fun he => by injection he with _ h2; exact List.noConfusion h2

theorem splitSign_not_sign :
    ∀ cs : List Char, (∀ c t, cs = c :: t → (c = '+' || c = '-') = false) →
      splitSign cs = ([], cs)
  | [], _ => rfl
  | c :: t, h => by simp [splitSign, h c t rfl]

theorem stodSign_not_sign :
    ∀ cs : List Char, (∀ c t, cs = c :: t → (c = '+' || c = '-') = false) →
      stodSign cs = (false, cs)
  | [], _ => rfl
  | c :: t, h => by
    have hb := h c t rfl
    simp only [Bool.or_eq_false_iff, decide_eq_false_iff_not] at hb
    simp [stodSign, hb.1, hb.2]

theorem termCoeffScan_render (d1 dot d2 rest : List Char)
    (h1 : ∀ c ∈ d1, isDigitB c = true)
    (hdot : dot = [] ∨ dot = ['.'])
    (h2 : ∀ c ∈ d2, isDigitB c = true)
    (hnodot : dot = [] → d2 = [])
    (hrest : ∀ c t, rest = c :: t → isDigitB c = false ∧ c ≠ '.') :
    termCoeffScan (d1 ++ dot ++ d2 ++ rest) = (d1 ++ dot ++ d2, rest) := by
  rcases hdot with hd | hd
  · subst hd
    have hd2 : d2 = [] := hnodot rfl
    subst hd2
    simp only [List.append_nil]
    unfold termCoeffScan
    rw [takeWhile_append_of_all d1 rest h1 (fun c t ht => (hrest c t ht).1),
        dropWhile_append_of_all d1 rest h1 (fun c t ht => (hrest c t ht).1)]
    cases hr : rest with
    | nil => rfl
    | cons c t =>
      have hne := (hrest c t hr).2
      simp [hne]
  · subst hd
    have hsh : d1 ++ ['.'] ++ d2 ++ rest = d1 ++ ('.' :: (d2 ++ rest)) := by simp
    rw [hsh]
    unfold termCoeffScan
    have hb : ∀ c t, ('.' :: (d2 ++ rest) : List Char) = c :: t → isDigitB c = false := by
      intro c t ht
      injection ht with hc _
      subst hc
      decide
    rw [takeWhile_append_of_all d1 ('.' :: (d2 ++ rest)) h1 hb,
        dropWhile_append_of_all d1 ('.' :: (d2 ++ rest)) h1 hb]
    simp only [if_pos rfl]
    rw [takeWhile_append_of_all d2 rest h2 (fun c t ht => (hrest c t ht).1),
        dropWhile_append_of_all d2 rest h2 (fun c t ht => (hrest c t ht).1)]
    simp

theorem head_not_sign_of_shape (d1 dot d2 id : List Char)
    (h1 : ∀ c ∈ d1, isDigitB c = true)
    (hdot : dot = [] ∨ dot = ['.'])
    (hnodot : dot = [] → d2 = [])
    (hid : isIdentShapeB id = true) :
    ∀ c t, d1 ++ dot ++ d2 ++ id = c :: t → (c = '+' || c = '-') = false := by
  intro c t ht
  cases d1 with
  | cons e es =>
    simp only [List.cons_append] at ht
    injection ht with hc _
    subst hc
    exact not_sign_of_isDigitB (h1 e (by simp))
  | nil =>
    rcases hdot with hd | hd
    · subst hd
      have hd2 : d2 = [] := hnodot rfl
      subst hd2
      simp only [List.nil_append] at ht
      cases id with
      | nil => exact List.noConfusion ht
      | cons e es =>
        injection ht with hc _
        subst hc
        simp only [isIdentShapeB, Bool.and_eq_true] at hid
        exact not_sign_of_isIdentHead hid.1
    · subst hd
      simp only [List.nil_append, List.cons_append] at ht
      injection ht with hc _
      subst hc
      decide

theorem matchTermPattern_render (sgn d1 dot d2 id : List Char)
    (hs : sgn = [] ∨ sgn = ['+'] ∨ sgn = ['-'])
    (h1 : ∀ c ∈ d1, isDigitB c = true)
    (hdot : dot = [] ∨ dot = ['.'])
    (h2 : ∀ c ∈ d2, isDigitB c = true)
    (hnodot : dot = [] → d2 = [])
    (hid : isIdentShapeB id = true) :
    matchTermPattern (sgn ++ d1 ++ dot ++ d2 ++ id) = some (sgn ++ d1 ++ dot ++ d2, id) := by
  obtain ⟨c0, t0, hideq⟩ : ∃ c0 t0, id = c0 :: t0 := by
    cases id with
    | nil => simp [isIdentShapeB] at hid
    | cons a b => exact ⟨a, b, rfl⟩
  subst hideq
  simp only [isIdentShapeB, Bool.and_eq_true] at hid
  have hrest : ∀ c t, (c0 :: t0 : List Char) = c :: t → isDigitB c = false ∧ c ≠ '.' := by
    intro c t ht
    injection ht with hc _
    subst hc
    exact ⟨not_digit_of_isIdentHead hid.1, ne_dot_of_isIdentHead hid.1⟩
  have hscan := termCoeffScan_render d1 dot d2 (c0 :: t0) h1 hdot h2 hnodot hrest
  have hsplit : splitSign (sgn ++ d1 ++ dot ++ d2 ++ (c0 :: t0)) =
      (sgn, d1 ++ dot ++ d2 ++ (c0 :: t0)) := by
    rcases hs with hsg | hsg | hsg <;> subst hsg
    · simpa using splitSign_not_sign _
        (head_not_sign_of_shape d1 dot d2 (c0 :: t0) h1 hdot hnodot
          (by simp [isIdentShapeB, hid.1, hid.2]))
    · rfl
    · rfl
  unfold matchTermPattern
  rw [hsplit]
  dsimp only
  rw [hscan]
  simp [hid.1, hid.2]

theorem stodL_render (sgn d1 dot d2 : List Char)
    (hs : sgn = [] ∨ sgn = ['+'] ∨ sgn = ['-'])
    (h1 : ∀ c ∈ d1, isDigitB c = true)
    (hdot : dot = [] ∨ dot = ['.'])
    (h2 : ∀ c ∈ d2, isDigitB c = true)
    (hnodot : dot = [] → d2 = []) :
    stodL (sgn ++ d1 ++ dot ++ d2) =
      if (d1 ++ d2).isEmpty then none
      else some (decOf (decide (sgn = ['-'])) d1 d2) := by
  have hbody : ∀ c t, (d1 ++ dot ++ d2 : List Char) = c :: t → (c = '+' || c = '-') = false := by
    intro c t ht
    cases d1 with
    | cons e es =>
      simp only [List.cons_append] at ht
      injection ht with hc _
      subst hc
      exact not_sign_of_isDigitB (h1 e (by simp))
    | nil =>
      rcases hdot with hd | hd
      · subst hd
        have hd2 : d2 = [] := hnodot rfl
        subst hd2
        exact List.noConfusion ht
      · subst hd
        simp only [List.nil_append, List.cons_append] at ht
        injection ht with hc _
        subst hc
        decide
  have hnws : (sgn ++ d1 ++ dot ++ d2).dropWhile isWsC = sgn ++ d1 ++ dot ++ d2 := by
    apply dropWhile_head_false
    intro c t ht
    rcases hs with hsg | hsg | hsg <;> subst hsg
    · simp only [List.nil_append] at ht
      cases d1 with
      | cons e es =>
        simp only [List.cons_append] at ht
        injection ht with hc _
        subst hc
        exact not_ws_of_isDigitB (h1 e (by simp))
      | nil =>
        rcases hdot with hd | hd
        · subst hd
          have hd2 : d2 = [] := hnodot rfl
          subst hd2
          exact List.noConfusion ht
        · subst hd
          simp only [List.nil_append, List.cons_append] at ht
          injection ht with hc _
          subst hc
          decide
    · simp only [List.cons_append] at ht
      injection ht with hc _
      subst hc
      decide
    · simp only [List.cons_append] at ht
      injection ht with hc _
      subst hc
      decide
  have hsplit : stodSign (sgn ++ d1 ++ dot ++ d2) =
      (decide (sgn = ['-']), d1 ++ dot ++ d2) := by
    rcases hs with hsg | hsg | hsg <;> subst hsg
    · simpa using stodSign_not_sign _ hbody
    · rfl
    · rfl
  unfold stodL
  rw [hnws, hsplit]
  dsimp only
  rcases hdot with hd | hd
  · subst hd
    have hd2 : d2 = [] := hnodot rfl
    subst hd2
    simp only [List.append_nil]
    have htk : d1.takeWhile isDigitB = d1 := by
      have := takeWhile_append_of_all d1 [] h1 (fun c t ht => List.noConfusion ht)
      simpa using this
    have hdp : d1.dropWhile isDigitB = [] := by
      have := dropWhile_append_of_all d1 [] h1 (fun c t ht => List.noConfusion ht)
      simpa using this
    unfold stodNum
    rw [hdp, htk]
  · subst hd
    have hsh : d1 ++ ['.'] ++ d2 = d1 ++ ('.' :: d2) := by simp
    rw [hsh]
    have hb : ∀ c t, ('.' :: d2 : List Char) = c :: t → isDigitB c = false := by
      intro c t ht
      injection ht with hc _
      subst hc
      decide
    have ht2 : d2.takeWhile isDigitB = d2 := by
      have := takeWhile_append_of_all d2 [] h2 (fun c t ht => List.noConfusion ht)
      simpa using this
    unfold stodNum
    rw [takeWhile_append_of_all d1 ('.' :: d2) h1 hb,
        dropWhile_append_of_all d1 ('.' :: d2) h1 hb]
    simp only [if_pos rfl]
    rw [ht2]
    cases d1 <;> cases d2 <;> simp

theorem parseTerm_render_cases (sgn d1 dot d2 id : List Char) (line : Nat)
    (hs : sgn = [] ∨ sgn = ['+'] ∨ sgn = ['-'])
    (h1 : ∀ c ∈ d1, isDigitB c = true)
    (hdot : dot = [] ∨ dot = ['.'])
    (h2 : ∀ c ∈ d2, isDigitB c = true)
    (hnodot : dot = [] → d2 = [])
    (hid : isIdentShapeB id = true) :
    parseTerm (⟨sgn ++ d1 ++ dot ++ d2 ++ id⟩ : String) line =
      if (d1 ++ d2).isEmpty then
        (if dot.isEmpty then
          (if sgn = ['-'] then .ok ⟨-1, (⟨id⟩ : String)⟩ else .ok ⟨1, (⟨id⟩ : String)⟩)
         else .error .stodFail)
      else .ok ⟨decOf (decide (sgn = ['-'])) d1 d2, (⟨id⟩ : String)⟩ := by
  have hmk := matchTermPattern_render sgn d1 dot d2 id hs h1 hdot h2 hnodot hid
  unfold parseTerm
  rw [show (⟨sgn ++ d1 ++ dot ++ d2 ++ id⟩ : String).data = sgn ++ d1 ++ dot ++ d2 ++ id from rfl,
      hmk]
  dsimp only
  cases h12 : (d1 ++ d2).isEmpty with
  | true =>
    have h120 : d1 = [] ∧ d2 = [] := by cases d1 <;> cases d2 <;> simp_all
    obtain ⟨hq1, hq2⟩ := h120
    subst hq1
    subst hq2
    rcases hdot with hd | hd <;> subst hd <;> rcases hs with hsg | hsg | hsg <;> subst hsg
    · rw [if_pos (Or.inl (by decide)), if_pos (by decide), if_pos (by decide),
          if_neg (by decide)]
    · rw [if_pos (Or.inr (by decide)), if_pos (by decide), if_pos (by decide),
          if_neg (by decide)]
    · rw [if_neg (by decide), if_pos (by decide), if_pos (by decide), if_pos (by decide),
          if_pos (by decide)]
    · rw [if_neg (by decide), if_neg (by decide),
          show stodL (([] : List Char) ++ [] ++ ['.'] ++ []) = none from by decide,
          if_pos (by decide), if_neg (by decide)]
    · rw [if_neg (by decide), if_neg (by decide),
          show stodL ((['+'] : List Char) ++ [] ++ ['.'] ++ []) = none from by decide,
          if_pos (by decide), if_neg (by decide)]
    · rw [if_neg (by decide), if_neg (by decide),
          show stodL ((['-'] : List Char) ++ [] ++ ['.'] ++ []) = none from by decide,
          if_pos (by decide), if_neg (by decide)]
  | false =>
    have hstod := stodL_render sgn d1 dot d2 hs h1 hdot h2 hnodot
    rw [h12] at hstod
    simp only [Bool.false_eq_true, if_false] at hstod
    obtain ⟨e, hem, hed⟩ : ∃ e, e ∈ (sgn ++ d1 ++ dot ++ d2) ∧ isDigitB e = true := by
      cases d1 with
      | cons a as => exact ⟨a, by simp, h1 a (by simp)⟩
      | nil =>
        cases d2 with
        | cons b bs => exact ⟨b, by simp, h2 b (by simp)⟩
        | nil => simp at h12
    have hne : ∀ L : List Char, (∀ c ∈ L, isDigitB c = false) →
        sgn ++ d1 ++ dot ++ d2 ≠ L := by
      intro L hL hcon
      rw [hcon] at hem
      rw [hL e hem] at hed
      exact Bool.noConfusion hed
    rw [if_neg (by
          rintro (hcon | hcon)
          · exact hne [] (by intro c hc; exact absurd hc (List.not_mem_nil c)) hcon
          · exact hne ['+'] (by intro c hc; simp at hc; subst hc; decide) hcon),
        if_neg (hne ['-'] (by intro c hc; simp at hc; subst hc; decide)),
        hstod]
    rfl

/-! ## The claims -/

/-- Claim C1.  The claim states that parsing `"Max\n3x + 2y\nx + y <= 10\n"`
succeeds and yields a MAXIMIZE model with objective `[(3,x),(2,y)]` and one
`<=` constraint.  The code rejects this input: the `Max` line sets the
`objectiveParsed` flag (parser.cpp line 170), so the objective line is
routed to the section dispatch while the section is still `NONE` and
parsing throws `"Unexpected line or misplaced section"` at line 2.  This
theorem evaluates the embedded parser at the claimed input. -/
theorem c1_canonical_input_rejected :
    parseFile "Max\n3x + 2y\nx + y <= 10\n" = .error (.unexpected 2) := by
  decide

/-- Claim C2, counterexample.  `"x <= 10"` contains exactly one relational
operator, `<=`, at index 2; the claim says the reader splits there and
stores `<=`.  The greedy regex instead splits at the `'='` (index 3),
storing operator `"="` and leaving the `'<'` inside the left-hand text. -/
theorem c2_counterexample_le_line :
    parseConstraint "x <= 10" 1 = .ok ⟨[⟨1, "x"⟩], 10, "=", 1⟩ ∧
    ("=" : String) ≠ "<=" := by
  exact ⟨by decide, by decide⟩

/-- Claim C2, amended.  The Constraint Reader splits every line at the LAST
occurrence of `'='` that has nonempty text on both sides (`lastEqSplit`,
written from the amended claim); the stored relational operator is always
`"="`, the terms are parsed from the text before that `'='`, and the rhs is
the number `std::stod` reads from the text after it. -/
theorem c2_split_at_last_eq (lineStr : String) (n : Nat) :
    parseConstraint lineStr n =
      match lastEqSplit lineStr.data with
      | none => .error (.constraintFmt n)
      | some (l, r) =>
        match parseExpression (⟨l⟩ : String) n with
        | .error e => .error e
        | .ok terms =>
          match stodL r with
          | none => .error .stodFail
          | some rhs => .ok ⟨terms, rhs, "=", n⟩ := by
  unfold parseConstraint
  rw [constraintSplit_eq_lastEqSplit]
  cases lastEqSplit lineStr.data with
  | none => rfl
  | some pr =>
    cases pr with
    | mk l r => rfl

/-- Claim C3.  The claim states every variable referenced in the objective
or a constraint has an entry in the bounds map.  The parser never inserts
objective/constraint variables into `model.bounds` (only the
Bounds/Integer/Binary sections do), so `"3x\nx = 1\n"` parses to a model
with an empty bounds map although `x` occurs in both; the lookup
precondition of `GLPKSolver::loadModel` (`solverColsOk`) is violated and
its `varNameToCol.at("x")` would throw `std::out_of_range`.  (The input
omits a direction line — a `Max` line would make the input unparseable
altogether, see C1 — which only makes the claim fail earlier than with the
claim's intended inputs.) -/
theorem c3_objective_variable_missing_from_bounds :
    parseFile "3x\nx = 1\n" =
      .ok ⟨none, ⟨[⟨3, "x"⟩], 0, "", 1⟩, [⟨[⟨1, "x"⟩], 1, "=", 2⟩], []⟩ ∧
    solverColsOk ⟨none, ⟨[⟨3, "x"⟩], 0, "", 1⟩, [⟨[⟨1, "x"⟩], 1, "=", 2⟩], []⟩ = false := by
  exact ⟨by decide, by decide⟩

/-- Claim C4, counterexample.  A line with two comparison operators parses
WITHOUT any error (the greedy pattern simply splits at the last `'='`), and
a non-numeric right-hand side raises the `std::stod` conversion error,
which carries no line number — in both cases not the claimed line-numbered
FormatError. -/
theorem c4_counterexample_two_ops :
    parseConstraint "x <= 5 <= 10" 1 = .ok ⟨[⟨1, "x"⟩], 10, "=", 1⟩ ∧
    parseConstraint "x <= abc" 1 = .error .stodFail := by
  exact ⟨by decide, by decide⟩

/-- Claim C4, amended.  A constraint line with two comparison operators does
not fail: it is split at the last `'='` and parses like any other line.  A
constraint line whose right-hand text has no numeric prefix fails with the
generic `std::stod` error carrying no line number.  A line-numbered
FormatError is raised only when the constraint pattern itself fails to
match, e.g. when the right-hand side is missing entirely. -/
theorem c4_actual_failure_modes :
    parseConstraint "x <= 5 <= 10" 4 = .ok ⟨[⟨1, "x"⟩], 10, "=", 4⟩ ∧
    parseConstraint "x <= abc" 5 = .error .stodFail ∧
    parseConstraint "x + y <=" 6 = .error (.constraintFmt 6) := by
  exact ⟨by decide, by decide, by decide⟩

/-- Claim C5, counterexample.  The token `".x"` does not have a valid
numeric coefficient, so per the claim the Term Reader should fail with a
FormatError carrying the line number and the token.  Instead the term regex
accepts `"."` as group 1 and `std::stod(".")` throws a bare
`std::invalid_argument` with neither line number nor token. -/
theorem c5_counterexample_dot_token :
    parseTerm ".x" 3 = .error .stodFail ∧
    ParseErr.stodFail ≠ ParseErr.termFmt 3 ".x" := by
  exact ⟨by decide, by decide⟩

/-- Claim C5, amended.  Tokens rejected by the code's term pattern fail with
a FormatError carrying the line number and the token.  A token that matches
the pattern decomposes as optional sign, digits, optional dot, digits, then
identifier; when it contains at least one coefficient digit the exact
decimal coefficient is recovered, when the coefficient text is empty or a
bare `"+"` the coefficient defaults to `1`, and for a bare `"-"` to `-1` —
but when the coefficient text is a bare (possibly signed) `"."`, the reader
instead fails with the generic `std::stod` error carrying neither line
number nor token. -/
theorem c5_term_reader_amended :
    (∀ (token : String) (line : Nat),
      matchTermPattern token.data = none →
      parseTerm token line = .error (.termFmt line token))
    ∧ (∀ (sgn d1 dot d2 id : List Char) (line : Nat),
        sgn = [] ∨ sgn = ['+'] ∨ sgn = ['-'] →
        (∀ c ∈ d1, isDigitB c = true) →
        dot = [] ∨ dot = ['.'] →
        (∀ c ∈ d2, isDigitB c = true) →
        (dot = [] → d2 = []) →
        isIdentShapeB id = true →
        parseTerm (⟨sgn ++ d1 ++ dot ++ d2 ++ id⟩ : String) line =
          if (d1 ++ d2).isEmpty then
            (if dot.isEmpty then
              (if sgn = ['-'] then .ok ⟨-1, (⟨id⟩ : String)⟩ else .ok ⟨1, (⟨id⟩ : String)⟩)
             else .error .stodFail)
          else .ok ⟨decOf (decide (sgn = ['-'])) d1 d2, (⟨id⟩ : String)⟩) := by
  constructor
  · intro token line h
    unfold parseTerm
    rw [h]
  · intro sgn d1 dot d2 id line hs h1 hdot h2 hnodot hid
    exact parseTerm_render_cases sgn d1 dot d2 id line hs h1 hdot h2 hnodot hid

/-- Witness for C5: the amended theorem applied to the concrete token
`"-3x"` (sign `-`, digits `3`, identifier `x`) at line 2. -/
theorem c5_witness : parseTerm "-3x" 2 = .ok ⟨-3, "x"⟩ := by
  have h := c5_term_reader_amended.2 ['-'] ['3'] [] [] ['x'] 2
    (by decide) (by decide) (by decide) (by decide) (by decide) (by decide)
  exact h.trans (by decide)

/-- Claim C6.  The claim says a duplicated direction line fails with
DuplicateSectionError at the second occurrence.  Because the `Max` branch
sets the shared `objectiveParsed` flag, `"Max\n3x + 2y\nMax\n"` never
reaches its second `Max`: it already fails at line 2 with
`"Unexpected line or misplaced section"`.  (Only when the duplicate
immediately follows, as in `"Max\nMax\n"`, does the duplicate check fire,
at line 2.) -/
theorem c6_duplicate_direction_behavior :
    parseFile "Max\n3x + 2y\nMax\n" = .error (.unexpected 2) ∧
    parseFile "Max\nMax\n" = .error (.dupType 2) := by
  exact ⟨by decide, by decide⟩

/-- Claim C7.  In a `Bounds:` section, `"x free"`, `"y >= 2"`, `"y <= 8"`
yield `x.isFree = true` and `y.lower = 2, y.upper = 8`: narrowings of the
same variable accumulate, entries are created with defaults on first
mention, other entries are untouched, and a `"z = 5"` line sets lower and
upper simultaneously (second conjunct, for an arbitrary prior map).
The input reaches the section through an objective first line: a `Max`
direction line would trip the `objectiveParsed`-flag misrouting (see C1)
before any section is entered. -/
theorem c7_bounds_section_accumulates :
    parseFile "x + y\nBounds:\nx free\ny >= 2\ny <= 8\nz = 5\n" =
      .ok ⟨none, ⟨[⟨1, "x"⟩, ⟨1, "y"⟩], 0, "", 1⟩, [],
           [("x", ⟨.negInf, .posInf, true, .CONTINUOUS⟩),
            ("y", ⟨.fin 2, .fin 8, false, .CONTINUOUS⟩),
            ("z", ⟨.fin 5, .fin 5, false, .CONTINUOUS⟩)]⟩ ∧
    (∀ (m : BoundsMap) (n : Nat),
      applyBoundsLine "z = 5" n m =
        .ok (mapUpdate m "z" (fun b => { b with lower := .fin 5, upper := .fin 5 }))) := by
  exact ⟨by decide, fun m n => rfl⟩

/-- Claim C8.  A `Binary:` line `"a, b"` sets both `a` and `b` to kind
BINARY with bounds `0..1`, overwriting the previously recorded narrowings
`a >= 5` and `b <= 7`; the second conjunct shows the overwrite from any
prior bounds map.  As in C7, the input omits the direction line, which the
flag conflation of parser.cpp line 170 makes unparseable together with an
objective. -/
theorem c8_binary_section_overrides :
    parseFile "x\nBounds:\na >= 5\nb <= 7\nBinary:\na, b\n" =
      .ok ⟨none, ⟨[⟨1, "x"⟩], 0, "", 1⟩, [],
           [("a", ⟨.fin 0, .fin 1, false, .BINARY⟩),
            ("b", ⟨.fin 0, .fin 1, false, .BINARY⟩)]⟩ ∧
    (∀ m : BoundsMap,
      applyIntBinLine "a, b" true m =
        mapUpdate (mapUpdate m "a"
            (fun b => { b with type := .BINARY, lower := .fin 0, upper := .fin 1 }))
          "b" (fun b => { b with type := .BINARY, lower := .fin 0, upper := .fin 1 })) := by
  exact ⟨by decide, fun m => rfl⟩

/-- Claim C9.  `Parser::parseFile` has no global or static state: its
`LPModel` is a local freshly constructed on each call, so the embedding is
a pure function of the input text.  Consequently two invocations on the
same input yield structurally identical models, field by field. -/
theorem c9_parse_deterministic (input : String) (m₁ m₂ : LPModel)
    (h₁ : parseFile input = .ok m₁) (h₂ : parseFile input = .ok m₂) :
    m₁.type = m₂.type ∧ m₁.objective = m₂.objective ∧
    m₁.constraints = m₂.constraints ∧ m₁.bounds = m₂.bounds := by
  rw [h₁] at h₂
  injection h₂ with h
  subst h
  exact ⟨rfl, rfl, rfl, rfl⟩

/-- Witness for C9: the determinism theorem applied to the concrete input
`"x\n"`, whose parse succeeds with `modelOfSingleX`. -/
theorem c9_witness :
    modelOfSingleX.type = modelOfSingleX.type ∧
    modelOfSingleX.objective = modelOfSingleX.objective ∧
    modelOfSingleX.constraints = modelOfSingleX.constraints ∧
    modelOfSingleX.bounds = modelOfSingleX.bounds :=
  c9_parse_deterministic "x\n" modelOfSingleX modelOfSingleX (by decide) (by decide)

/-- Claim C10 (implicit, from parser.cpp lines 197-199).  In the BOUNDS
section any line containing the substring `"free"` anywhere is handled by
the free-variable branch: the trimmed text before the first `"free"`
becomes the variable name whose `isFree` flag is set.  In particular
`"freedom >= 3"` marks the EMPTY-named variable free instead of recording a
bound for `freedom` or failing.  (Input again omits the direction line, as
in C7.) -/
theorem c10_free_substring_behavior :
    (∀ (line : String) (n : Nat) (m : BoundsMap) (i : Nat),
      findSubstr "free".data line.data = some i →
      applyBoundsLine line n m =
        .ok (mapUpdate m (trimS ⟨line.data.take i⟩) (fun b => { b with isFree := true }))) ∧
    parseFile "x\nBounds:\nfreedom >= 3\n" =
      .ok ⟨none, ⟨[⟨1, "x"⟩], 0, "", 1⟩, [],
           [("", ⟨.negInf, .posInf, true, .CONTINUOUS⟩)]⟩ := by
  constructor
  · intro line n m i h
    unfold applyBoundsLine
    rw [h]
  · decide

/-- Witness for C10: the free-branch theorem applied to the concrete line
`"freedom >= 3"` (where `"free"` occurs at index 0) over the empty map. -/
theorem c10_witness :
    applyBoundsLine "freedom >= 3" 3 [] =
      .ok [("", ⟨.negInf, .posInf, true, .CONTINUOUS⟩)] := by
  have h := c10_free_substring_behavior.1 "freedom >= 3" 3 [] 0 (by decide)
  exact h.trans (by decide)
